import Mathlib

/-!
Verification development for the ERP column-mapping tool (`app.py`).

The file embeds, as executable Lean definitions, the parts of the program
the specification talks about:

* the Python value shapes reaching `normalize_rule` (`Raw`, `pyToString`),
* the canonical rule variants (`Rule`) and `normalize_rule` itself,
* Python-dict association-list operations (`dictGet`, `dictInsert`),
* the filesystem-safe identifier derivation and the template store
  (`safeIdentifier`, `save_template`, `load_template`),
* the pandas `DataFrame` operations used by `transform`
  (`Table`, `setColScalar`, `setColSeries`) and `transform`,
* the mapping session merge of prefill rules with live user choices
  (`visibleTargets`, `liveRule`, `sessionMapping`).

Theorems about these definitions follow after all definitions.
-/

/-- A Python value as it can reach `normalize_rule` or be stored in a
template JSON document: `None`, strings, ints, bools, lists and
string-keyed dicts.  (JSON documents deserialize into exactly these
shapes; floats do not occur in the documents this program writes.) -/
inductive Raw where
  | pyNone
  | pyStr (s : String)
  | pyInt (n : Int)
  | pyBool (b : Bool)
  | pyList (xs : List Raw)
  | pyDict (d : List (String × Raw))

mutual

/-- Python `repr` of a `Raw` value (strings quoted, as inside containers). -/
def pyRepr : Raw → String
  | .pyNone => "None"
  | .pyStr s => "'" ++ s ++ "'"
  | .pyInt n => toString n
  | .pyBool b => if b then "True" else "False"
  | .pyList xs => "[" ++ String.intercalate ", " (pyReprList xs) ++ "]"
  | .pyDict d => "\x7b" ++ String.intercalate ", " (pyReprDict d) ++ "\x7d"

/-- `repr` of each element of a Python list. -/
def pyReprList : List Raw → List String
  | [] => []
  | x :: xs => pyRepr x :: pyReprList xs

/-- `repr` of each `key: value` entry of a Python dict. -/
def pyReprDict : List (String × Raw) → List String
  | [] => []
  | (k, v) :: ds => ("'" ++ k ++ "': " ++ pyRepr v) :: pyReprDict ds

end

/-- Python `str()` of a `Raw` value: a string is itself, everything else
is its `repr`. -/
def pyToString : Raw → String
  | .pyStr s => s
  | r => pyRepr r

/-- Python dict read `m.get(k)` on a dict modelled as an association
list with unique keys: the value stored under the first matching key. -/
def dictGet {α : Type} (m : List (String × α)) (k : String) : Option α :=
  (m.find? (fun p => p.1 == k)).map Prod.snd

/-- Python `k in m` on a dict. -/
def dictHasKey {α : Type} (m : List (String × α)) (k : String) : Bool :=
  m.any (fun p => p.1 == k)

/-- Python dict write `m[k] = v`: an existing key keeps its position and
gets the new value; a new key is appended (insertion order). -/
def dictInsert {α : Type} : List (String × α) → String → α → List (String × α)
  | [], k, v => [(k, v)]
  | p :: t, k, v => if p.1 == k then (k, v) :: t else p :: dictInsert t k v

/-- The canonical in-memory mapping rule for one target column
(the dicts `\x7b"type": "blank"\x7d`, `\x7b"type": "source", "value": v\x7d`,
`\x7b"type": "manual", "value": v\x7d` built by the app). -/
inductive Rule where
  | blank
  | source (value : String)
  | manual (value : String)
deriving Repr, DecidableEq

/-- `normalize_rule(rule, blank_option, manual_option)` from `app.py`:
backward-compatible normalization of a persisted mapping entry into a
canonical `Rule`.  `None` → blank; a dict with a `"type"` key is read by
its type (unknown types downgrade to blank; the value field is passed
through Python `str()` with default `""`); a dict without `"type"` and
every non-string non-dict shape fall through to blank; a string is the
legacy format (blank marker, manual marker, otherwise a source column
name). -/
def normalize_rule (rule : Raw) (blank_option manual_option : String) : Rule :=
  match rule with
  | .pyNone => .blank
  | .pyDict d =>
    match dictGet d "type" with
    | none => .blank
    | some (.pyStr t) =>
      if t = "source" then
        .source (pyToString ((dictGet d "value").getD (.pyStr "")))
      else if t = "manual" then
        .manual (pyToString ((dictGet d "value").getD (.pyStr "")))
      else .blank
    | some _ => .blank
  | .pyStr s =>
    if s = blank_option then .blank
    else if s = manual_option then .manual ""
    else .source s
  | _ => .blank

/-- The Python dict the app uses to represent a canonical `Rule`
(the exact dicts `normalize_rule` returns), re-encoded as a `Raw` value
so it can be fed back through `normalize_rule`. -/
def ruleToRaw : Rule → Raw
  | .blank => .pyDict [("type", .pyStr "blank")]
  | .source v => .pyDict [("type", .pyStr "source"), ("value", .pyStr v)]
  | .manual v => .pyDict [("type", .pyStr "manual"), ("value", .pyStr v)]

/-- Python `str.isalnum()` for one character.  Exact on every code point
below U+0250: ASCII letters and digits; the Latin-1 alphanumerics
`ª ² ³ µ ¹ º ¼ ½ ¾`; and the Latin-1 Supplement / Latin Extended-A/B
letter block U+00C0–U+024F, which is all letters except `×` (U+00D7)
and `÷` (U+00F7).  Code points from U+0250 upward are treated as
non-alphanumeric; no string in this development uses them. -/
def pyIsAlnum (c : Char) : Bool :=
  c.isAlphanum
  || [0xAA, 0xB2, 0xB3, 0xB5, 0xB9, 0xBA, 0xBC, 0xBD, 0xBE].contains c.toNat
  || (0xC0 ≤ c.toNat && c.toNat ≤ 0x24F && c.toNat != 0xD7 && c.toNat != 0xF7)

/-- Python `str.strip()` default whitespace set (ASCII part). -/
def pyIsSpace (c : Char) : Bool :=
  [' ', '\t', '\n', '\r', '\x0b', '\x0c'].contains c

/-- Python `str.strip()` on a character list: drop whitespace from both
ends. -/
def pyStrip (l : List Char) : List Char :=
  ((l.dropWhile pyIsSpace).reverse.dropWhile pyIsSpace).reverse

/-- The identifier derivation in `save_template`:
`"".join(c for c in name if c.isalnum() or c in ("-", "_", " ")).strip().replace(" ", "_")`,
with the empty result replaced by `"template"`. -/
def safeIdentifier (name : String) : String :=
  let filtered := name.data.filter (fun c => pyIsAlnum c || c = '-' || c = '_' || c = ' ')
  let replaced := (pyStrip filtered).map (fun c => if c = ' ' then '_' else c)
  if replaced.isEmpty then "template" else String.mk replaced

/-- Contents of one file in the template directory.  A file whose bytes
are valid JSON is modelled by the parsed value (`json.dump` always
writes such bytes, and `json.load` of them returns the value written);
a file whose bytes are not valid JSON is kept as raw text. -/
inductive FileContent where
  | json (j : Raw)
  | notJson (raw : String)

/-- The template directory: filename → file contents. -/
def Store : Type := List (String × FileContent)

/-- How `load_template` fails: `FileNotFoundError` from `open`, or
`json.JSONDecodeError` from `json.load`. -/
inductive LoadError where
  | notFound
  | corrupt
deriving Repr, DecidableEq

/-- `load_template(filename)` from `app.py`: open the file in the
template directory and `json.load` it.  A missing file raises
not-found; bytes that are not valid JSON raise the decode error; any
valid JSON value is returned, whatever its shape. -/
def load_template (store : Store) (filename : String) : Except LoadError Raw :=
  match dictGet store filename with
  | none => .error .notFound
  | some (.json j) => .ok j
  | some (.notJson _) => .error .corrupt

/-- Result of `save_template`: the returned path (the filename inside
the template directory), the directory after the write, and the
caller's payload dict after the in-place `payload["_saved_at"] = ...`
mutation. -/
structure SaveResult where
  path : String
  store : Store
  payload : List (String × Raw)

/-- `save_template(name, payload)` from `app.py`: derive the safe
identifier, stamp `payload["_saved_at"]` with the current time (an
in-place mutation of the caller's dict), and write the payload as JSON
to `<safe>.json`, overwriting any existing file of that name.  `now` is
the `datetime.now().isoformat(timespec="seconds")` string. -/
def save_template (store : Store) (name : String) (payload : List (String × Raw))
    (now : String) : SaveResult :=
  let safe := safeIdentifier name
  let fname := safe ++ ".json"
  let payload2 := dictInsert payload "_saved_at" (.pyStr now)
  ⟨fname, dictInsert store fname (.json (.pyDict payload2)), payload2⟩

/-- A value of one spreadsheet cell: pandas `NA`/`NaN`, a string, or an
integer (cell contents are opaque pass-through data; these shapes cover
everything this development needs). -/
inductive Cell where
  | NA
  | str (s : String)
  | int (n : Int)
deriving Repr, DecidableEq

/-- A pandas `DataFrame` with a `RangeIndex`: named columns in order,
each holding `nrows` cells.  (Both input sheets and the output frame of
`transform` have range indexes.) -/
structure Table where
  cols : List (String × List Cell)
  nrows : Nat
deriving Repr, DecidableEq

/-- Well-formed frame: every column holds exactly `nrows` cells. -/
def Table.WF (t : Table) : Prop :=
  ∀ p ∈ t.cols, (Prod.snd p).length = t.nrows

/-- Column names in order, `df.columns`. -/
def Table.colNames (t : Table) : List String :=
  t.cols.map Prod.fst

/-- `df[c]` guarded by `c in df.columns`: the cells of column `c`. -/
def Table.getCol (t : Table) (c : String) : Option (List Cell) :=
  dictGet t.cols c

/-- `df[c] = values` once the values to store are known: an existing
column keeps its position and is overwritten, a new column is appended. -/
def setColVals (t : Table) (c : String) (vs : List Cell) : Table :=
  ⟨dictInsert t.cols c vs, t.nrows⟩

/-- `df[c] = scalar`: pandas broadcasts a scalar over the frame's
current index, whatever its length — on a frame with an empty index the
new column has 0 rows. -/
def setColScalar (t : Table) (c : String) (v : Cell) : Table :=
  setColVals t c (List.replicate t.nrows v)

/-- Reindexing a frame to a new length-`n` range index with
`fill_value = NaN`: every existing column is refilled with `n` null
markers (pandas `DataFrame._ensure_valid_index`). -/
def reindexTo (t : Table) (n : Nat) : Table :=
  ⟨t.cols.map (fun p => (p.1, List.replicate n Cell.NA)), n⟩

/-- Aligning a series with a length-`R` range index to a frame with a
length-`n` range index: positions `0..n-1` take the series value when it
exists, `NaN` otherwise. -/
def alignTo (vs : List Cell) (n : Nat) : List Cell :=
  vs.take n ++ List.replicate (n - vs.length) Cell.NA

/-- `df[c] = series`: if the frame's index is empty and the series is
non-empty, pandas first adopts the series' index as the frame's index
(`_ensure_valid_index`, refilling existing columns with `NaN`); otherwise
the series is aligned to the frame's index. -/
def setColSeries (t : Table) (c : String) (vs : List Cell) : Table :=
  if t.nrows = 0 ∧ vs.length ≠ 0 then
    setColVals (reindexTo t vs.length) c vs
  else
    setColVals t c (alignTo vs t.nrows)

/-- One iteration of the loop body of `transform`: resolve the rule for
`tgt_col` (`mapping.get(tgt_col, blank)`) and perform the corresponding
column assignment on the output frame. -/
def transformStep (src : Table) (mapping : List (String × Rule)) (out : Table)
    (tgt : String) : Table :=
  match (dictGet mapping tgt).getD .blank with
  | .source v =>
    match src.getCol v with
    | some vs => setColSeries out tgt vs
    | none => setColScalar out tgt Cell.NA
  | .manual v => setColScalar out tgt (Cell.str v)
  | .blank => setColScalar out tgt Cell.NA

/-- `transform(src, tgt_cols_order, mapping)` from `app.py`: start from
`pd.DataFrame()` (no columns, empty index) and assign one column per
entry of `tgt_cols_order` in order. -/
def transform (src : Table) (tgt_cols_order : List String)
    (mapping : List (String × Rule)) : Table :=
  tgt_cols_order.foldl (transformStep src mapping) ⟨[], 0⟩

/-- Lowercasing used by the search filter (`.lower()`); ASCII case map,
exact for the column names used in this development. -/
def lowerChars (l : List Char) : List Char :=
  l.map Char.toLower

/-- Python `needle in hay` on strings as character lists: substring
containment (the empty needle is contained in everything). -/
def listIsInfix (needle : List Char) : List Char → Bool
  | [] => needle.isEmpty
  | c :: t => needle.isPrefixOf (c :: t) || listIsInfix needle t

/-- The target-column search filter:
`[c for c in tgt_cols if search.strip().lower() in c.lower()] if search.strip() else tgt_cols`. -/
def visibleTargets (search : String) (tgt_cols : List String) : List String :=
  let s := pyStrip search.data
  if s.isEmpty then tgt_cols
  else tgt_cols.filter (fun c => listIsInfix (lowerChars s) (lowerChars c.data))

/-- The rule built from the user's live widget state for one visible
target column: the selectbox string `choice` and the manual-value text
input `manualVal` (lines 199–210 of `app.py`). -/
def liveRule (choice manualVal blank_option manual_option : String) : Rule :=
  if choice = manual_option then .manual manualVal
  else if choice = blank_option then .blank
  else .source choice

/-- The prefill entry for a target column:
`prefill_mapping.get(tgt)`, `None` when the column has no entry. -/
def prefillGet (prefill : List (String × Raw)) (tgt : String) : Raw :=
  (dictGet prefill tgt).getD .pyNone

/-- The mapping produced by one pass of the mapping UI (lines 170–217 of
`app.py`): first each visible target column gets the rule built from
the user's live widget state, then every target column still missing
gets its normalized prefill rule.  (The source's
`pre_rule if pre_rule else blank` always takes `pre_rule`, a non-empty
dict.)  `choiceOf`/`manualOf` give the widget state per target column. -/
def sessionMapping (tgt_cols visible : List String)
    (choiceOf manualOf : String → String) (prefill : List (String × Raw))
    (blank_option manual_option : String) : List (String × Rule) :=
  let m0 := visible.foldl
    (fun acc tgt =>
      dictInsert acc tgt (liveRule (choiceOf tgt) (manualOf tgt) blank_option manual_option))
    []
  tgt_cols.foldl
    (fun acc tgt =>
      if dictHasKey acc tgt then acc
      else dictInsert acc tgt (normalize_rule (prefillGet prefill tgt) blank_option manual_option))
    m0

/-- First-occurrence accumulation of a column name, the effect of one
column assignment on `df.columns`. -/
def upsertName (ns : List String) (c : String) : List String :=
  if ns.contains c then ns else ns ++ [c]

/-- A 3-row source table with one column `A`. -/
def srcThree : Table :=
  ⟨[("A", [Cell.int 1, Cell.int 2, Cell.int 3])], 3⟩

/-- The 2-row source table `\x7b"A": [1, 2]\x7d` of the spec's tests. -/
def srcTwo : Table :=
  ⟨[("A", [Cell.int 1, Cell.int 2])], 2⟩

/-- Whether a JSON value is a JSON object.  The expected template
document is a top-level object with the snapshot, sheet and mapping
keys, so a non-object value certainly does not have the expected
document shape. -/
def isJsonObject : Raw → Bool
  | .pyDict _ => true
  | _ => false

theorem dictGet_cons {α : Type} (p : String × α) (t : List (String × α)) (k : String) :
    dictGet (p :: t) k = if p.1 == k then some p.2 else dictGet t k := by
  by_cases h : p.1 == k <;> simp [dictGet, List.find?_cons, h]

theorem dictHasKey_iff {α : Type} (m : List (String × α)) (k : String) :
    dictHasKey m k = true ↔ k ∈ m.map Prod.fst := by
  simp only [dictHasKey, List.any_eq_true, List.mem_map, beq_iff_eq]

theorem dictGet_eq_none_iff {α : Type} (m : List (String × α)) (k : String) :
    dictGet m k = none ↔ k ∉ m.map Prod.fst := by
  induction m with
  | nil => simp [dictGet]
  | cons p t ih =>
    rw [dictGet_cons]
    by_cases h : p.1 = k
    · simp [h]
    · simp only [beq_iff_eq, h, if_false, ih, List.map_cons, List.mem_cons, not_or]
      constructor
      · exact fun hk => ⟨fun he => h he.symm, hk⟩
      · exact fun hk => hk.2

theorem dictInsert_keys {α : Type} (m : List (String × α)) (k : String) (v : α) :
    (dictInsert m k v).map Prod.fst =
      if dictHasKey m k then m.map Prod.fst else m.map Prod.fst ++ [k] := by
  induction m with
  | nil => simp [dictInsert, dictHasKey]
  | cons p t ih =>
    by_cases hpk : p.1 = k
    · simp [dictInsert, dictHasKey, hpk]
    · simp only [dictInsert, beq_iff_eq, hpk, if_false, List.map_cons, ih,
        dictHasKey, List.any_cons]
      by_cases ht : dictHasKey t k
      · simp [dictHasKey] at ht
        simp [hpk, ht]
      · simp [dictHasKey] at ht
        simp [hpk, ht]

theorem dictInsert_mem_keys {α : Type} (m : List (String × α)) (k : String) (v : α)
    (a : String) :
    a ∈ (dictInsert m k v).map Prod.fst ↔ a ∈ m.map Prod.fst ∨ a = k := by
  rw [dictInsert_keys]
  split
  · rename_i h
    have hk : k ∈ m.map Prod.fst := (dictHasKey_iff m k).1 h
    constructor
    · exact Or.inl
    · rintro (h1 | rfl)
      · exact h1
      · exact hk
  · simp

theorem dictInsert_keys_nodup {α : Type} (m : List (String × α)) (k : String) (v : α)
    (h : (m.map Prod.fst).Nodup) : ((dictInsert m k v).map Prod.fst).Nodup := by
  rw [dictInsert_keys]
  split
  · exact h
  · rename_i hk
    have hnk : k ∉ m.map Prod.fst := fun hmem => hk ((dictHasKey_iff m k).2 hmem)
    simp [List.nodup_append, h, hnk]

theorem dictGet_dictInsert_self {α : Type} (m : List (String × α)) (k : String) (v : α) :
    dictGet (dictInsert m k v) k = some v := by
  induction m with
  | nil => simp [dictInsert, dictGet_cons]
  | cons p t ih =>
    by_cases hpk : p.1 = k
    · simp [dictInsert, hpk, dictGet_cons]
    · simp only [dictInsert, beq_iff_eq, hpk, if_false]
      rw [dictGet_cons]
      simp [hpk, ih]

theorem dictGet_dictInsert_ne {α : Type} (m : List (String × α)) (k : String) (v : α)
    (a : String) (hne : a ≠ k) : dictGet (dictInsert m k v) a = dictGet m a := by
  induction m with
  | nil =>
    simp [dictInsert, dictGet_cons, dictGet, Ne.symm hne]
  | cons p t ih =>
    by_cases hpk : p.1 = k
    · simp only [dictInsert, beq_iff_eq, hpk, if_true]
      rw [dictGet_cons, dictGet_cons]
      simp [hpk, Ne.symm hne]
    · simp only [dictInsert, beq_iff_eq, hpk, if_false]
      rw [dictGet_cons, dictGet_cons]
      by_cases hpa : p.1 = a
      · simp [hpa]
      · simp [hpa, ih]

/-- Claim C4: `normalize_rule` is total (it is a plain function on every
input shape) and returns exactly the rule of the spec's case analysis:
`None` yields blank; a dict whose `"type"` is `"source"`/`"manual"`
yields a source/manual rule over the stringified value (default `""`);
a dict with any other `"type"` yields blank; a string equal to the
blank marker yields blank, a remaining string equal to the manual
marker yields `manual ""`, any other string yields a source rule over
itself; every other shape (int, bool, list, dict without `"type"`)
yields blank. -/
theorem normalize_rule_case_analysis (b m : String) :
    (normalize_rule .pyNone b m = .blank)
    ∧ (∀ d, dictGet d "type" = some (.pyStr "source") →
        normalize_rule (.pyDict d) b m =
          .source (pyToString ((dictGet d "value").getD (.pyStr ""))))
    ∧ (∀ d, dictGet d "type" = some (.pyStr "manual") →
        normalize_rule (.pyDict d) b m =
          .manual (pyToString ((dictGet d "value").getD (.pyStr ""))))
    ∧ (∀ d t, dictGet d "type" = some t → t ≠ .pyStr "source" → t ≠ .pyStr "manual" →
        normalize_rule (.pyDict d) b m = .blank)
    ∧ (∀ d, dictGet d "type" = none → normalize_rule (.pyDict d) b m = .blank)
    ∧ (∀ s, s = b → normalize_rule (.pyStr s) b m = .blank)
    ∧ (∀ s, s ≠ b → s = m → normalize_rule (.pyStr s) b m = .manual "")
    ∧ (∀ s, s ≠ b → s ≠ m → normalize_rule (.pyStr s) b m = .source s)
    ∧ (∀ n : Int, normalize_rule (.pyInt n) b m = .blank)
    ∧ (∀ bo : Bool, normalize_rule (.pyBool bo) b m = .blank)
    ∧ (∀ xs, normalize_rule (.pyList xs) b m = .blank) := by
  refine ⟨rfl, ?_, ?_, ?_, ?_, ?_, ?_, ?_, fun _ => rfl, fun _ => rfl, fun _ => rfl⟩
  · intro d h
    simp [normalize_rule, h]
  · intro d h
    simp [normalize_rule, h]
  · intro d t h h1 h2
    simp only [normalize_rule, h]
    cases t with
    | pyStr s =>
      have hs1 : s ≠ "source" := fun he => h1 (by rw [he])
      have hs2 : s ≠ "manual" := fun he => h2 (by rw [he])
      simp [hs1, hs2]
    | pyNone => rfl
    | pyInt n => rfl
    | pyBool bb => rfl
    | pyList xs => rfl
    | pyDict dd => rfl
  · intro d h
    simp [normalize_rule, h]
  · intro s hs
    simp [normalize_rule, hs]
  · intro s hs1 hs2
    subst hs2
    simp [normalize_rule, hs1]
  · intro s hs1 hs2
    simp [normalize_rule, hs1, hs2]

/-- Witness for C4 at concrete inputs, including the spec's two legacy
compatibility examples. -/
theorem normalize_rule_case_analysis_witness :
    normalize_rule (.pyDict [("type", .pyStr "source"), ("value", .pyStr "Ad")])
        "(Boş)" "(Manuel Değer Gir)" = .source "Ad"
    ∧ normalize_rule (.pyStr "(Boş)") "(Boş)" "(Manuel Değer Gir)" = .blank
    ∧ normalize_rule (.pyStr "CustomerName") "(Boş)" "(Manuel Değer Gir)"
        = .source "CustomerName"
    ∧ normalize_rule (.pyDict [("type", .pyStr "whatever")]) "(Boş)" "(Manuel Değer Gir)"
        = .blank
    ∧ normalize_rule (.pyStr "(Manuel Değer Gir)") "(Boş)" "(Manuel Değer Gir)"
        = .manual ""
    ∧ normalize_rule (.pyDict [("value", .pyStr "x")]) "(Boş)" "(Manuel Değer Gir)"
        = .blank
    ∧ normalize_rule (.pyDict [("type", .pyStr "manual"), ("value", .pyStr "v")])
        "(Boş)" "(Manuel Değer Gir)" = .manual "v" :=
  ⟨(normalize_rule_case_analysis "(Boş)" "(Manuel Değer Gir)").2.1 _ rfl,
   (normalize_rule_case_analysis "(Boş)" "(Manuel Değer Gir)").2.2.2.2.2.1 _ rfl,
   (normalize_rule_case_analysis "(Boş)" "(Manuel Değer Gir)").2.2.2.2.2.2.2.1 _
     (by decide) (by decide),
   (normalize_rule_case_analysis "(Boş)" "(Manuel Değer Gir)").2.2.2.1 _ _ rfl
     (by intro h; injection h with h'; exact absurd h' (by decide))
     (by intro h; injection h with h'; exact absurd h' (by decide)),
   (normalize_rule_case_analysis "(Boş)" "(Manuel Değer Gir)").2.2.2.2.2.2.1 _
     (by decide) rfl,
   (normalize_rule_case_analysis "(Boş)" "(Manuel Değer Gir)").2.2.2.2.1 _ rfl,
   (normalize_rule_case_analysis "(Boş)" "(Manuel Değer Gir)").2.2.1 _ rfl⟩

theorem normalize_rule_canonical_fixed (r : Rule) (b m : String) :
    normalize_rule (ruleToRaw r) b m = r := by
  cases r <;> rfl

/-- Claim C8: `normalize_rule` is idempotent — re-normalizing the
structured dict encoding of the rule it returned gives the same rule
back, for the same markers. -/
theorem normalize_rule_idempotent (raw : Raw) (b m : String) :
    normalize_rule (ruleToRaw (normalize_rule raw b m)) b m = normalize_rule raw b m :=
  normalize_rule_canonical_fixed (normalize_rule raw b m) b m

theorem mem_pyStrip {c : Char} {l : List Char} (h : c ∈ pyStrip l) : c ∈ l := by
  unfold pyStrip at h
  have h1 : c ∈ (l.dropWhile pyIsSpace).reverse.dropWhile pyIsSpace :=
    List.mem_reverse.1 h
  have h2 : c ∈ (l.dropWhile pyIsSpace).reverse :=
    (List.dropWhile_sublist _).mem h1
  exact (List.dropWhile_sublist _).mem (List.mem_reverse.1 h2)

/-- Counterexample to C6 as stated: Python's `str.isalnum` is
Unicode-aware, so the name `"Boş"` survives the filter unchanged and
the derived identifier contains `ş`, which is outside `[A-Za-z0-9_-]`. -/
theorem safe_identifier_ascii_counterexample :
    safeIdentifier "Boş" = "Boş"
    ∧ ¬ ((safeIdentifier "Boş").data.all
          (fun c => c.isAlphanum || c = '-' || c = '_') = true) := by
  constructor
  · rfl
  · decide

/-- Claim C6 (amended): the identifier derived by `save_template` keeps
only Python-alphanumerics, hyphen, underscore and space from the name,
trims the edges, turns the remaining spaces into underscores, and
substitutes the fixed default `"template"` when the result is empty; so
every character of the identifier is Python-alphanumeric (Unicode-aware,
e.g. `ş` is kept), a hyphen, or an underscore — but not necessarily in
ASCII `[A-Za-z0-9_-]` — and the identifier is never empty. -/
theorem safe_identifier_charset (name : String) :
    (safeIdentifier name).data.all (fun c => pyIsAlnum c || c = '-' || c = '_') = true
    ∧ safeIdentifier name ≠ "" := by
  simp only [safeIdentifier]
  set filtered :=
    name.data.filter (fun c => pyIsAlnum c || c = '-' || c = '_' || c = ' ') with hf
  set replaced := (pyStrip filtered).map (fun c => if c = ' ' then '_' else c) with hr
  by_cases hemp : replaced.isEmpty
  · simp only [if_pos hemp]
    exact ⟨by decide, by decide⟩
  · simp only [if_neg hemp]
    constructor
    · rw [List.all_eq_true]
      intro c hc
      have hc' : c ∈ replaced := hc
      rw [hr] at hc'
      rcases List.mem_map.1 hc' with ⟨c0, hc0, rfl⟩
      have hc0f : c0 ∈ filtered := mem_pyStrip hc0
      rw [hf] at hc0f
      have hpred := (List.mem_filter.1 hc0f).2
      by_cases hsp : c0 = ' '
      · simp [hsp]
      · simp only [if_neg hsp]
        simp only [decide_eq_true_eq, hsp, or_false, Bool.or_eq_true] at hpred
        simp only [Bool.or_eq_true, decide_eq_true_eq]
        tauto
    · intro h
      have hrep : replaced = [] := by simpa using congrArg String.data h
      rw [hrep] at hemp
      exact hemp rfl

/-- Witness for C6 at a concrete name. -/
theorem safe_identifier_charset_witness :
    ((safeIdentifier "My Template!").data.all
        (fun c => pyIsAlnum c || c = '-' || c = '_') = true)
    ∧ safeIdentifier "My Template!" ≠ "" :=
  safe_identifier_charset "My Template!"

/-- Claim C7: saving a template document and loading it back under the
saved filename returns exactly the saved dict: its `"mapping"` entry
equals the original document's, every key other than `"_saved_at"` is
unchanged, and `"_saved_at"` holds the save timestamp — the only
difference from the caller's document. -/
theorem save_load_round_trip (store : Store) (name : String)
    (payload : List (String × Raw)) (now : String) :
    load_template (save_template store name payload now).store
        (save_template store name payload now).path
      = .ok (.pyDict (save_template store name payload now).payload)
    ∧ dictGet (save_template store name payload now).payload "mapping"
      = dictGet payload "mapping"
    ∧ (∀ k, k ≠ "_saved_at" →
        dictGet (save_template store name payload now).payload k = dictGet payload k)
    ∧ dictGet (save_template store name payload now).payload "_saved_at"
      = some (.pyStr now) := by
  refine ⟨?_, ?_, ?_, ?_⟩
  · show load_template
      (dictInsert store (safeIdentifier name ++ ".json")
        (.json (.pyDict (dictInsert payload "_saved_at" (.pyStr now)))))
      (safeIdentifier name ++ ".json") = _
    unfold load_template
    rw [dictGet_dictInsert_self]
    rfl
  · exact dictGet_dictInsert_ne payload "_saved_at" (.pyStr now) "mapping" (by decide)
  · exact fun k hk => dictGet_dictInsert_ne payload "_saved_at" (.pyStr now) k hk
  · exact dictGet_dictInsert_self payload "_saved_at" (.pyStr now)

/-- Witness for C7 at a concrete store, name and document. -/
theorem save_load_round_trip_witness :
    load_template
        (save_template [] "My Template!"
          [("mapping", .pyDict [("Musteri", .pyStr "Ad")])] "2026-10-12T00:00:00").store
        (save_template [] "My Template!"
          [("mapping", .pyDict [("Musteri", .pyStr "Ad")])] "2026-10-12T00:00:00").path
      = .ok (.pyDict (save_template [] "My Template!"
          [("mapping", .pyDict [("Musteri", .pyStr "Ad")])] "2026-10-12T00:00:00").payload)
    ∧ dictGet (save_template [] "My Template!"
          [("mapping", .pyDict [("Musteri", .pyStr "Ad")])] "2026-10-12T00:00:00").payload
          "mapping"
      = dictGet [("mapping", Raw.pyDict [("Musteri", Raw.pyStr "Ad")])] "mapping" :=
  ⟨(save_load_round_trip [] "My Template!"
      [("mapping", .pyDict [("Musteri", .pyStr "Ad")])] "2026-10-12T00:00:00").1,
   (save_load_round_trip [] "My Template!"
      [("mapping", .pyDict [("Musteri", .pyStr "Ad")])] "2026-10-12T00:00:00").2.2.1
      "mapping" (by decide)⟩

/-- Counterexample to C9 as stated: a stored payload that is valid JSON
but not of the expected template-document shape (here the JSON array
`[]`, not even an object) does NOT make `load_template` fail with the
corrupt-document error — it is returned as-is.  The corrupt error is
raised exactly for bytes that are not valid JSON, not for well-formed
JSON of the wrong shape. -/
theorem load_template_wrong_shape_counterexample :
    load_template [("t.json", .json (.pyList []))] "t.json" = .ok (.pyList [])
    ∧ isJsonObject (.pyList []) = false :=
  ⟨rfl, rfl⟩

/-- Claim C9 (amended): `load_template` fails with the not-found error
exactly when the identifier is absent from the store, and with the
corrupt error exactly when the stored bytes are not valid JSON; any
valid JSON payload — of the expected document shape or not — is
returned without error.  (`normalize_rule` and `transform` are plain
total functions in this development, so no other modelled component
fails on malformed mapping data.) -/
theorem load_template_error_characterization (store : Store) (filename : String) :
    (load_template store filename = .error .notFound ↔ dictGet store filename = none)
    ∧ (load_template store filename = .error .corrupt ↔
        ∃ raw, dictGet store filename = some (.notJson raw))
    ∧ (∀ j, dictGet store filename = some (.json j) →
        load_template store filename = .ok j) := by
  unfold load_template
  match h : dictGet store filename with
  | none => simp
  | some (.json j) => simp
  | some (.notJson raw) => simp

/-- Witness for C9 at a concrete store and filenames. -/
theorem load_template_error_characterization_witness :
    (load_template [("a.json", .json (.pyDict []))] "missing.json"
        = .error .notFound ↔ dictGet ([("a.json", FileContent.json (.pyDict []))] : Store)
        "missing.json" = none)
    ∧ load_template [("bad.json", .notJson "oops")] "bad.json" = .error .corrupt :=
  ⟨(load_template_error_characterization
      [("a.json", .json (.pyDict []))] "missing.json").1,
   (load_template_error_characterization
      [("bad.json", .notJson "oops")] "bad.json").2.1.2 ⟨"oops", rfl⟩⟩

/-- Claim C10: `save_template` mutates the caller's payload dict in
place — after the call the payload carries the `"_saved_at"` timestamp
key, and when the key was absent before the call the payload object is
no longer equal to what the caller passed in. -/
theorem save_template_mutates_payload (store : Store) (name : String)
    (payload : List (String × Raw)) (now : String) :
    dictGet (save_template store name payload now).payload "_saved_at"
      = some (.pyStr now)
    ∧ (dictGet payload "_saved_at" = none →
        (save_template store name payload now).payload ≠ payload) := by
  constructor
  · exact dictGet_dictInsert_self payload "_saved_at" (.pyStr now)
  · intro habs heq
    have : dictGet payload "_saved_at" = some (.pyStr now) := by
      conv_lhs => rw [← heq]
      exact dictGet_dictInsert_self payload "_saved_at" (.pyStr now)
    rw [habs] at this
    exact Option.noConfusion this

/-- Witness for C10 at a concrete payload without a `"_saved_at"` key. -/
theorem save_template_mutates_payload_witness :
    dictGet (save_template [] "eslestirme" [("mapping", .pyDict [])]
        "2026-10-12T00:00:00").payload "_saved_at" = some (.pyStr "2026-10-12T00:00:00")
    ∧ (save_template [] "eslestirme" [("mapping", .pyDict [])]
        "2026-10-12T00:00:00").payload ≠ [("mapping", Raw.pyDict [])] :=
  ⟨(save_template_mutates_payload [] "eslestirme" [("mapping", .pyDict [])]
      "2026-10-12T00:00:00").1,
   (save_template_mutates_payload [] "eslestirme" [("mapping", .pyDict [])]
      "2026-10-12T00:00:00").2 rfl⟩

theorem setColVals_colNames (t : Table) (c : String) (vs : List Cell) :
    (setColVals t c vs).colNames = upsertName t.colNames c := by
  simp only [setColVals, Table.colNames, dictInsert_keys, upsertName]
  by_cases h : c ∈ t.cols.map Prod.fst
  · rw [if_pos ((dictHasKey_iff _ _).2 h), if_pos (by simpa using h)]
  · rw [if_neg (fun hh => h ((dictHasKey_iff _ _).1 hh)), if_neg (by simpa using h)]

theorem reindexTo_colNames (t : Table) (n : Nat) :
    (reindexTo t n).colNames = t.colNames := by
  simp [reindexTo, Table.colNames, List.map_map, Function.comp]

theorem transformStep_colNames (src : Table) (mapping : List (String × Rule))
    (out : Table) (tgt : String) :
    (transformStep src mapping out tgt).colNames = upsertName out.colNames tgt := by
  unfold transformStep
  cases (dictGet mapping tgt).getD .blank with
  | blank => simp [setColScalar, setColVals_colNames]
  | manual v => simp [setColScalar, setColVals_colNames]
  | source v =>
    cases hc : src.getCol v with
    | none => simp [hc, setColScalar, setColVals_colNames]
    | some vs =>
      simp only [hc]
      unfold setColSeries
      by_cases h0 : out.nrows = 0 ∧ vs.length ≠ 0
      · rw [if_pos h0, setColVals_colNames, reindexTo_colNames]
      · rw [if_neg h0, setColVals_colNames]

theorem transform_fold_colNames (src : Table) (mapping : List (String × Rule))
    (l : List String) (out : Table) :
    (l.foldl (transformStep src mapping) out).colNames
      = l.foldl upsertName out.colNames := by
  induction l generalizing out with
  | nil => rfl
  | cons c t ih => rw [List.foldl_cons, List.foldl_cons, ih, transformStep_colNames]

theorem foldl_upsertName_sublist (l ns : List String) :
    (l.foldl upsertName ns).Sublist (ns ++ l) := by
  induction l generalizing ns with
  | nil => simp
  | cons c t ih =>
    rw [List.foldl_cons]
    refine (ih (upsertName ns c)).trans ?_
    unfold upsertName
    by_cases h : ns.contains c
    · rw [if_pos h]
      exact List.Sublist.append_left (List.sublist_cons_self c t) ns
    · rw [if_neg h]
      rw [List.append_assoc, List.singleton_append]

theorem foldl_upsertName_mem (l ns : List String) (a : String) :
    a ∈ l.foldl upsertName ns ↔ a ∈ ns ∨ a ∈ l := by
  induction l generalizing ns with
  | nil => simp
  | cons c t ih =>
    rw [List.foldl_cons, ih]
    unfold upsertName
    by_cases h : ns.contains c
    · rw [if_pos h]
      have hc : c ∈ ns := by simpa using h
      simp only [List.mem_cons]
      constructor
      · rintro (h1 | h2)
        · exact Or.inl h1
        · exact Or.inr (Or.inr h2)
      · rintro (h1 | rfl | h2)
        · exact Or.inl h1
        · exact Or.inl hc
        · exact Or.inr h2
    · rw [if_neg h]
      simp only [List.mem_append, List.mem_singleton, List.mem_cons]
      tauto

theorem foldl_upsertName_nodup (l ns : List String) (h : ns.Nodup) :
    (l.foldl upsertName ns).Nodup := by
  induction l generalizing ns with
  | nil => exact h
  | cons c t ih =>
    rw [List.foldl_cons]
    apply ih
    unfold upsertName
    by_cases hc : ns.contains c
    · rw [if_pos hc]
      exact h
    · rw [if_neg hc]
      have hnc : c ∉ ns := by simpa using hc
      simp [List.nodup_append, h, hnc]

/-- Claim C1 (code divergence, recorded as a code bug): applied to a
3-row source with the all-manual mapping of the spec's "manual
broadcast" test, `transform` returns a table with 0 rows — not 3 rows
of `"fixed"`.  The output frame starts as `pd.DataFrame()` with an
empty index, and pandas broadcasts a scalar assignment over that empty
index, so no rule of type manual (or blank, or a missing source
reference) can ever establish the source's row count. -/
theorem transform_manual_broadcast_zero_rows :
    transform srcThree ["X"] [("X", .manual "fixed")] = ⟨[("X", [])], 0⟩
    ∧ (transform srcThree ["X"] [("X", .manual "fixed")]).nrows ≠ srcThree.nrows :=
  ⟨rfl, by decide⟩

/-- Claim C2 (code divergence, recorded as a code bug): on the spec's
own missing-source test — source `\x7b"A": [1, 2]\x7d`, target `["X"]`,
mapping `X ↦ Source("Z")` — the missing column soft-fails to a column
with 0 rows, not to 2 null markers: `out["X"] = pd.NA` broadcasts the
scalar over the empty output index. -/
theorem transform_missing_source_zero_rows :
    transform srcTwo ["X"] [("X", .source "Z")] = ⟨[("X", [])], 0⟩
    ∧ (transform srcTwo ["X"] [("X", .source "Z")]).nrows ≠ srcTwo.nrows :=
  ⟨rfl, by decide⟩

/-- Counterexample to C3 as stated: with the duplicated target column
list `["X", "X"]` the output holds ONE column named `X`, not two —
the second `out["X"] = ...` assignment overwrites the first column
instead of appending a duplicate. -/
theorem transform_duplicate_targets_counterexample :
    (transform srcTwo ["X", "X"] []).cols.length = 1
    ∧ (transform srcTwo ["X", "X"] []).cols.length ≠ ["X", "X"].length :=
  ⟨rfl, by decide⟩

/-- Claim C3 (amended): the output of `transform` has exactly one
column per DISTINCT name in the target column list — its column-name
sequence is a duplicate-free subsequence of `target_columns` containing
every name of it (first occurrences, in order); a name listed twice
yields a single column resolved from the mapping by that name, not two
independent columns.  The order part of the original claim holds for
duplicate-free target lists. -/
theorem transform_columns_dedup (src : Table) (tgt_cols : List String)
    (mapping : List (String × Rule)) :
    (transform src tgt_cols mapping).colNames.Sublist tgt_cols
    ∧ (transform src tgt_cols mapping).colNames.Nodup
    ∧ (∀ k, k ∈ (transform src tgt_cols mapping).colNames ↔ k ∈ tgt_cols) := by
  have hn : (transform src tgt_cols mapping).colNames = tgt_cols.foldl upsertName [] :=
    transform_fold_colNames src mapping tgt_cols ⟨[], 0⟩
  refine ⟨?_, ?_, ?_⟩
  · rw [hn]
    simpa using foldl_upsertName_sublist tgt_cols []
  · rw [hn]
    exact foldl_upsertName_nodup _ _ List.nodup_nil
  · intro k
    rw [hn, foldl_upsertName_mem]
    simp

/-- Witness for C3's amended theorem at a concrete instance. -/
theorem transform_columns_dedup_witness :
    (transform srcTwo ["Musteri", "Il", "Musteri"]
        [("Musteri", .source "A")]).colNames.Sublist ["Musteri", "Il", "Musteri"]
    ∧ (transform srcTwo ["Musteri", "Il", "Musteri"]
        [("Musteri", .source "A")]).colNames.Nodup
    ∧ (∀ k, k ∈ (transform srcTwo ["Musteri", "Il", "Musteri"]
        [("Musteri", .source "A")]).colNames ↔ k ∈ ["Musteri", "Il", "Musteri"]) :=
  transform_columns_dedup srcTwo ["Musteri", "Il", "Musteri"] [("Musteri", .source "A")]

theorem dictGet_some_mem_keys {α : Type} {m : List (String × α)} {a : String} {v : α}
    (h : dictGet m a = some v) : a ∈ m.map Prod.fst := by
  by_contra hn
  rw [(dictGet_eq_none_iff m a).2 hn] at h
  exact Option.noConfusion h

theorem foldl_insert_keys_sub {α : Type} (f : String → α) (l : List String)
    (acc : List (String × α)) (a : String)
    (h : a ∈ (l.foldl (fun acc tgt => dictInsert acc tgt (f tgt)) acc).map Prod.fst) :
    a ∈ acc.map Prod.fst ∨ a ∈ l := by
  induction l generalizing acc with
  | nil => exact Or.inl h
  | cons c t ih =>
    rw [List.foldl_cons] at h
    rcases ih _ h with h1 | h2
    · rcases (dictInsert_mem_keys _ _ _ _).1 h1 with h3 | rfl
      · exact Or.inl h3
      · exact Or.inr (List.mem_cons_self _ _)
    · exact Or.inr (List.mem_cons_of_mem _ h2)

theorem foldl_insert_keys_nodup {α : Type} (f : String → α) (l : List String)
    (acc : List (String × α)) (h : (acc.map Prod.fst).Nodup) :
    ((l.foldl (fun acc tgt => dictInsert acc tgt (f tgt)) acc).map Prod.fst).Nodup := by
  induction l generalizing acc with
  | nil => exact h
  | cons c t ih =>
    rw [List.foldl_cons]
    exact ih _ (dictInsert_keys_nodup _ _ _ h)

theorem foldl_fill_mem {α : Type} (g : String → α) (l : List String)
    (acc : List (String × α)) (a : String) :
    a ∈ (l.foldl
          (fun acc tgt => if dictHasKey acc tgt then acc else dictInsert acc tgt (g tgt))
          acc).map Prod.fst
      ↔ a ∈ acc.map Prod.fst ∨ a ∈ l := by
  induction l generalizing acc with
  | nil => simp
  | cons c t ih =>
    rw [List.foldl_cons]
    by_cases hc : dictHasKey acc c
    · rw [if_pos hc, ih]
      have hcm : c ∈ acc.map Prod.fst := (dictHasKey_iff _ _).1 hc
      simp only [List.mem_cons]
      constructor
      · rintro (h1 | h2)
        · exact Or.inl h1
        · exact Or.inr (Or.inr h2)
      · rintro (h1 | rfl | h2)
        · exact Or.inl h1
        · exact Or.inl hcm
        · exact Or.inr h2
    · rw [if_neg hc, ih, dictInsert_mem_keys]
      simp only [List.mem_cons]
      tauto

theorem foldl_fill_keys_nodup {α : Type} (g : String → α) (l : List String)
    (acc : List (String × α)) (h : (acc.map Prod.fst).Nodup) :
    ((l.foldl
        (fun acc tgt => if dictHasKey acc tgt then acc else dictInsert acc tgt (g tgt))
        acc).map Prod.fst).Nodup := by
  induction l generalizing acc with
  | nil => exact h
  | cons c t ih =>
    rw [List.foldl_cons]
    by_cases hc : dictHasKey acc c
    · rw [if_pos hc]
      exact ih _ h
    · rw [if_neg hc]
      exact ih _ (dictInsert_keys_nodup _ _ _ h)

theorem foldl_fill_preserves {α : Type} (g : String → α) (l : List String)
    (acc : List (String × α)) (a : String) (v : α) (h : dictGet acc a = some v) :
    dictGet (l.foldl
        (fun acc tgt => if dictHasKey acc tgt then acc else dictInsert acc tgt (g tgt))
        acc) a = some v := by
  induction l generalizing acc with
  | nil => exact h
  | cons c t ih =>
    rw [List.foldl_cons]
    by_cases hc : dictHasKey acc c
    · rw [if_pos hc]
      exact ih _ h
    · rw [if_neg hc]
      have hac : a ≠ c := by
        intro he
        exact hc (he ▸ (dictHasKey_iff _ _).2 (dictGet_some_mem_keys h))
      exact ih _ (by rw [dictGet_dictInsert_ne _ _ _ _ hac, h])

theorem foldl_fill_inserts {α : Type} (g : String → α) (l : List String)
    (acc : List (String × α)) (a : String) (hnk : a ∉ acc.map Prod.fst) (hal : a ∈ l) :
    dictGet (l.foldl
        (fun acc tgt => if dictHasKey acc tgt then acc else dictInsert acc tgt (g tgt))
        acc) a = some (g a) := by
  induction l generalizing acc with
  | nil => cases hal
  | cons c t ih =>
    rw [List.foldl_cons]
    by_cases hac : a = c
    · subst hac
      have hnh : ¬ dictHasKey acc a := fun hh => hnk ((dictHasKey_iff _ _).1 hh)
      rw [if_neg hnh]
      exact foldl_fill_preserves g t _ a (g a) (dictGet_dictInsert_self _ _ _)
    · have hat : a ∈ t := by
        rcases List.mem_cons.1 hal with h1 | h2
        · exact absurd h1 hac
        · exact h2
      by_cases hc : dictHasKey acc c
      · rw [if_pos hc]
        exact ih _ hnk hat
      · rw [if_neg hc]
        refine ih _ ?_ hat
        intro hmem
        rcases (dictInsert_mem_keys _ _ _ _).1 hmem with h1 | h2
        · exact hnk h1
        · exact hac h2

/-- Claim C5: the merged mapping of one UI pass covers exactly the
target columns — its keys are duplicate-free and are precisely the
names in `tgt_cols`, whatever subset was visible and whatever the live
choices were; every target column outside the visible subset keeps its
normalized prefill rule (blank when the prefill has no entry for it,
since `prefill_mapping.get` then yields `None`). -/
theorem session_mapping_coverage (tgt_cols visible : List String)
    (choiceOf manualOf : String → String) (prefill : List (String × Raw))
    (b m : String) (hvis : ∀ c ∈ visible, c ∈ tgt_cols) :
    ((sessionMapping tgt_cols visible choiceOf manualOf prefill b m).map Prod.fst).Nodup
    ∧ (∀ k,
        k ∈ (sessionMapping tgt_cols visible choiceOf manualOf prefill b m).map Prod.fst
        ↔ k ∈ tgt_cols)
    ∧ (∀ k, k ∈ tgt_cols → k ∉ visible →
        dictGet (sessionMapping tgt_cols visible choiceOf manualOf prefill b m) k
          = some (normalize_rule (prefillGet prefill k) b m)) := by
  have hm0sub : ∀ a ∈ (visible.foldl
      (fun acc tgt => dictInsert acc tgt (liveRule (choiceOf tgt) (manualOf tgt) b m))
      ([] : List (String × Rule))).map Prod.fst, a ∈ visible := by
    intro a ha
    rcases foldl_insert_keys_sub _ visible [] a ha with h1 | h2
    · simp at h1
    · exact h2
  have hm0nodup : ((visible.foldl
      (fun acc tgt => dictInsert acc tgt (liveRule (choiceOf tgt) (manualOf tgt) b m))
      ([] : List (String × Rule))).map Prod.fst).Nodup :=
    foldl_insert_keys_nodup _ visible [] (by simp)
  simp only [sessionMapping]
  refine ⟨?_, ?_, ?_⟩
  · exact foldl_fill_keys_nodup _ tgt_cols _ hm0nodup
  · intro k
    rw [foldl_fill_mem]
    constructor
    · rintro (h1 | h2)
      · exact hvis k (hm0sub k h1)
      · exact h2
    · exact Or.inr
  · intro k hk hknv
    exact foldl_fill_inserts _ tgt_cols _ k (fun hmem => hknv (hm0sub k hmem)) hk

/-- Witness for C5 at a concrete session: target columns
`["Musteri", "Il"]`, search `"mus"` (so only `Musteri` is visible), a
live manual choice for the visible column, and a legacy prefill for the
hidden column `Il`. -/
theorem session_mapping_coverage_witness :
    ((sessionMapping ["Musteri", "Il"] (visibleTargets "mus" ["Musteri", "Il"])
        (fun _ => "(Manuel Değer Gir)") (fun _ => "V") [("Il", .pyStr "Sehir")]
        "(Boş)" "(Manuel Değer Gir)").map Prod.fst).Nodup
    ∧ (∀ k,
        k ∈ (sessionMapping ["Musteri", "Il"] (visibleTargets "mus" ["Musteri", "Il"])
          (fun _ => "(Manuel Değer Gir)") (fun _ => "V") [("Il", .pyStr "Sehir")]
          "(Boş)" "(Manuel Değer Gir)").map Prod.fst
        ↔ k ∈ ["Musteri", "Il"])
    ∧ (∀ k, k ∈ ["Musteri", "Il"] → k ∉ visibleTargets "mus" ["Musteri", "Il"] →
        dictGet (sessionMapping ["Musteri", "Il"] (visibleTargets "mus" ["Musteri", "Il"])
          (fun _ => "(Manuel Değer Gir)") (fun _ => "V") [("Il", .pyStr "Sehir")]
          "(Boş)" "(Manuel Değer Gir)") k
          = some (normalize_rule (prefillGet [("Il", .pyStr "Sehir")] k)
              "(Boş)" "(Manuel Değer Gir)")) :=
  session_mapping_coverage ["Musteri", "Il"] (visibleTargets "mus" ["Musteri", "Il"])
    (fun _ => "(Manuel Değer Gir)") (fun _ => "V") [("Il", .pyStr "Sehir")]
    "(Boş)" "(Manuel Değer Gir)" (by decide)
